import Mathlib

set_option maxHeartbeats 1000000

/-!
Verification of the prouter client-side router (src/src/prouter.ts).

The TypeScript source is shallowly embedded: JS strings are `List Char` /
`String`, JS objects with string keys are association lists, thrown JS
exceptions are `Except` errors, and the platform pieces the router calls
into (the `URL` parser, `decodeURIComponent`) are modelled from their
ECMAScript semantics.  The compiled route pattern (`PathExp`) appears in
two guises: syntactically, as the regex source string RouteHelper builds
(used for registration-time claims), and semantically, as an abstract
`test`/`exec` pair (used for the navigation claims, which quantify over
matching behaviour; the JS regex engine itself is not embedded).
-/

namespace Prouter

/-- JS String.prototype.split with a one-character separator, on char
lists: "a&&b" splits to ["a","","b"] and "" splits to [""]. -/
def jsSplitChars (sep : Char) : List Char → List (List Char)
  | [] => [[]]
  | c :: rest =>
    match jsSplitChars sep rest with
    | [] => [[c]]
    | g :: gs => if c = sep then [] :: g :: gs else (c :: g) :: gs

/-- Value of a hexadecimal digit, as in the ECMAScript Decode algorithm. -/
def hexVal (c : Char) : Option Nat :=
  if '0' ≤ c ∧ c ≤ '9' then some (c.toNat - '0'.toNat)
  else if 'a' ≤ c ∧ c ≤ 'f' then some (c.toNat - 'a'.toNat + 10)
  else if 'A' ≤ c ∧ c ≤ 'F' then some (c.toNat - 'A'.toNat + 10)
  else none

/-- Read one %XX escape body: two hex digits (the percent sign has already
been consumed). -/
def readHexByte : List Char → Option (Nat × List Char)
  | c1 :: c2 :: rest =>
    match hexVal c1, hexVal c2 with
    | some h1, some h2 => some (16 * h1 + h2, rest)
    | _, _ => none
  | _ => none

/-- Read the continuation bytes of a UTF-8 sequence: each must be a
percent escape whose byte lies in 0x80..0xBF. -/
def readContBytes : Nat → List Char → Option (List Nat × List Char)
  | 0, cs => some ([], cs)
  | n + 1, cs =>
    match cs with
    | '%' :: cs1 =>
      match readHexByte cs1 with
      | some (b, rest) =>
        if 0x80 ≤ b ∧ b ≤ 0xBF then
          match readContBytes n rest with
          | some (bs, rest2) => some (b :: bs, rest2)
          | none => none
        else none
      | none => none
    | _ => none

/-- Assemble a UTF-8 code point from a leading byte and its continuation
bytes, with the validity checks of the ECMAScript Decode algorithm: no
overlong forms, no surrogates, nothing above 0x10FFFF. -/
def utf8Assemble (b0 : Nat) (bs : List Nat) : Option Nat :=
  let n := bs.length + 1
  let payload :=
    if n = 2 then b0 - 0xC0
    else if n = 3 then b0 - 0xE0
    else b0 - 0xF0
  let v := bs.foldl (fun acc b => acc * 64 + (b - 0x80)) payload
  let lo : Nat := if n = 2 then 0x80 else if n = 3 then 0x800 else 0x10000
  if lo ≤ v ∧ v ≤ 0x10FFFF ∧ ¬ (0xD800 ≤ v ∧ v ≤ 0xDFFF) then some v else none

/-- ECMAScript Decode with an empty reserved set, i.e. decodeURIComponent.
An error models the thrown URIError on a malformed percent escape or
invalid UTF-8.  Fueled for structural recursion; the fuel starts at the
input length plus one and every step consumes at least one character, so
it never runs out. -/
def decodeGo : Nat → List Char → List Char → Except Unit (List Char)
  | 0, _, _ => .error ()
  | _ + 1, [], acc => .ok acc
  | fuel + 1, c :: rest, acc =>
    if c = '%' then
      match readHexByte rest with
      | none => .error ()
      | some (b, rest1) =>
        if b < 0x80 then decodeGo fuel rest1 (acc ++ [Char.ofNat b])
        else if b < 0xC0 ∨ 0xF7 < b then .error ()
        else
          let n := if 0xF0 ≤ b then 3 else if 0xE0 ≤ b then 2 else 1
          match readContBytes n rest1 with
          | none => .error ()
          | some (bs, rest2) =>
            match utf8Assemble b bs with
            | none => .error ()
            | some v => decodeGo fuel rest2 (acc ++ [Char.ofNat v])
    else decodeGo fuel rest (acc ++ [c])

/-- JS decodeURIComponent on char lists; `error` is a thrown URIError. -/
def decodeL (cs : List Char) : Except Unit (List Char) :=
  decodeGo (cs.length + 1) cs []

/-- JS ToString of a possibly-undefined string, as happens when
parseQuery hands pair[1] of a pair without an equals sign to
decodeURIComponent: undefined coerces to the string "undefined". -/
def jsToStringL : Option (List Char) → List Char
  | none => "undefined".data
  | some s => s

/-- JS assignment to a string-keyed object, modelled as an association
list: overwrite an existing key in place, otherwise append. -/
def setKey (l : List (String × String)) (k v : String) : List (String × String) :=
  if l.any (fun p => p.1 = k) then l.map (fun p => if p.1 = k then (k, v) else p)
  else l ++ [(k, v)]

/-- One pair of RouteHelper.parseQuery: split on the equals sign, decode
the key (pair[0]) and the value (pair[1], which is undefined when there is
no equals sign and then coerces to the string "undefined"). -/
def decodePair (s : List Char) : Except Unit (String × String) :=
  let parts := jsSplitChars '=' s
  match decodeL (parts.headD []) with
  | .error e => .error e
  | .ok k =>
    match decodeL (jsToStringL parts[1]?) with
    | .error e => .error e
    | .ok v => .ok (⟨k⟩, ⟨v⟩)

def parseQueryGo (acc : List (String × String)) :
    List (List Char) → Except Unit (List (String × String))
  | [] => .ok acc
  | s :: rest =>
    match decodePair s with
    | .error e => .error e
    | .ok (k, v) => parseQueryGo (setKey acc k v) rest

/-- The pair strings RouteHelper.parseQuery iterates over: the query
string with one leading question mark stripped, split on ampersands. -/
def queryPairs (queryString : String) : List (List Char) :=
  jsSplitChars '&' (match queryString.data with
    | '?' :: rest => rest
    | l => l)

/-- RouteHelper.parseQuery: strip one leading question mark, split on
ampersands, store each decoded pair into the result object.  A decode
failure propagates: the JS code has no try/catch around
decodeURIComponent. -/
def parseQuery (queryString : String) : Except Unit (List (String × String)) :=
  parseQueryGo [] (queryPairs queryString)

/-- RouteHelper.clearSlashes: String.replace with the non-global regex
of leading slashes or trailing slashes, so only the first match is
removed — a leading run of slashes if present, else a trailing run. -/
def clearSlashes (path : String) : String :=
  let cs := path.data
  if cs.head? = some '/' then ⟨cs.dropWhile (fun c => c = '/')⟩
  else if cs.getLast? = some '/' then ⟨(cs.reverse.dropWhile (fun c => c = '/')).reverse⟩
  else path

/-- Characters escaped by RouteHelper._escapeString
(class .+*?=^!:$\x7b\x7d()[]|/ — note: not the backslash). -/
def escStrSpecial (c : Char) : Bool :=
  c ∈ ['.', '+', '*', '?', '=', '^', '!', ':', '$', '\x7b', '\x7d', '(', ')', '[', ']', '|', '/']

def escapeStringL (cs : List Char) : List Char :=
  cs.flatMap (fun c => if escStrSpecial c then ['\\', c] else [c])

/-- Characters escaped by RouteHelper._escapeGroup (class =!:$/()). -/
def escGroupSpecial (c : Char) : Bool :=
  c ∈ ['=', '!', ':', '$', '/', '(', ')']

def escapeGroupL (cs : List Char) : List Char :=
  cs.flatMap (fun c => if escGroupSpecial c then ['\\', c] else [c])

/-- A parsed route token, as produced by RouteHelper._parse: either a
literal chunk or a parameter descriptor. -/
inductive Token where
  | lit (s : String)
  | param (name : String) (pfx : String) (delim : String)
      (optional : Bool) (rep : Bool) (pattern : String)
deriving DecidableEq, Repr

/-- JS line terminators, which the dot of a regex does not match. -/
def lineTerm (c : Char) : Bool :=
  c = '\n' || c = '\r' || c = '\u2028' || c = '\u2029'

/-- Match the PATH_STRIPPER piece ((?:\\.|[^()])*) up to a closing
parenthesis, with the engine's backtracking preference: an escape pair is
taken first, falling back to the backslash alone when the rest fails.
Returns the matched content and the remainder after the close paren. -/
def mgc : List Char → Option (List Char × List Char)
  | [] => none
  | ')' :: rest => some ([], rest)
  | '(' :: _ => none
  | '\\' :: c :: rest =>
    if lineTerm c then
      match mgc (c :: rest) with
      | some (content, r) => some ('\\' :: content, r)
      | none => none
    else
      match mgc rest with
      | some (content, r) => some ('\\' :: c :: content, r)
      | none =>
        match mgc (c :: rest) with
        | some (content, r) => some ('\\' :: content, r)
        | none => none
  | c :: rest =>
    match mgc rest with
    | some (content, r) => some (c :: content, r)
    | none => none

/-- The capture-group body requires at least one content character. -/
def matchGroup (cs : List Char) : Option (List Char × List Char) :=
  match mgc cs with
  | some ([], _) => none
  | some (content, rest) => some (content, rest)
  | none => none

/-- JS \w (ASCII word character). -/
def wordChar (c : Char) : Bool :=
  ('a' ≤ c && c ≤ 'z') || ('A' ≤ c && c ≤ 'Z') || ('0' ≤ c && c ≤ '9') || c = '_'

structure InnerMatch where
  name : Option (List Char)
  cap : Option (List Char)
  ast : Bool
  sfx : Option Char
deriving DecidableEq, Repr

/-- The optional ([+*?]) suffix after a named or anonymous group. -/
def readSuffix (cs : List Char) : Option Char × List Char :=
  match cs with
  | c :: rest => if c = '+' || c = '*' || c = '?' then (some c, rest) else (none, cs)
  | [] => (none, cs)

/-- Anchored match of the parameter body of PATH_STRIPPER, after the
optional prefix character: a named parameter with an optional capture
group, an anonymous capture group, or a bare asterisk (which takes no
suffix in the regex). -/
def matchInner (cs : List Char) : Option (InnerMatch × List Char) :=
  match cs with
  | ':' :: rest =>
    let nm := rest.takeWhile wordChar
    if nm = [] then none
    else
      let rest2 := rest.dropWhile wordChar
      match rest2 with
      | '(' :: t =>
        match matchGroup t with
        | some (content, rest3) =>
          let (sfx, rest4) := readSuffix rest3
          some ({ name := some nm, cap := some content, ast := false, sfx }, rest4)
        | none =>
          let (sfx, rest4) := readSuffix rest2
          some ({ name := some nm, cap := none, ast := false, sfx }, rest4)
      | _ =>
        let (sfx, rest4) := readSuffix rest2
        some ({ name := some nm, cap := none, ast := false, sfx }, rest4)
  | '(' :: t =>
    match matchGroup t with
    | some (content, rest3) =>
      let (sfx, rest4) := readSuffix rest3
      some ({ name := none, cap := some content, ast := false, sfx }, rest4)
    | none => none
  | '*' :: rest => some ({ name := none, cap := none, ast := true, sfx := none }, rest)
  | _ => none

/-- Anchored match of the whole parameter alternative, with its optional
([/.]) prefix; if the body fails after a prefix the engine retries
without the prefix at the same position. -/
def matchParamAt (cs : List Char) : Option (Option Char × InnerMatch × List Char) :=
  match cs with
  | c :: rest =>
    if c = '/' || c = '.' then
      match matchInner rest with
      | some (im, r) => some (some c, im, r)
      | none =>
        match matchInner cs with
        | some (im, r) => some (none, im, r)
        | none => none
    else
      match matchInner cs with
      | some (im, r) => some (none, im, r)
      | none => none
  | [] => none

/-- Build a parameter token from a PATH_STRIPPER match, exactly as the
token push in RouteHelper._parse: name defaults to the running key
counter, prefix to the empty string, delimiter to the prefix or slash,
pattern to the capture, else .* for an asterisk, else one-or-more
characters excluding the delimiter; the pattern is group-escaped. -/
def mkToken (key : Nat) (pfx : Option Char) (im : InnerMatch) : Token :=
  let rep := im.sfx = some '+' || im.sfx = some '*'
  let optional := im.sfx = some '?' || im.sfx = some '*'
  let delim : Char := pfx.getD '/'
  let rawPattern : List Char :=
    match im.cap with
    | some content => content
    | none => if im.ast then ['.', '*'] else ['[', '^', delim, ']', '+', '?']
  Token.param
    (match im.name with | some nm => ⟨nm⟩ | none => toString key)
    (match pfx with | some c => ⟨[c]⟩ | none => "")
    ⟨[delim]⟩ optional rep ⟨escapeGroupL rawPattern⟩

def flushLit (pathIt : List Char) : List Token :=
  if pathIt = [] then [] else [.lit ⟨pathIt⟩]

/-- The PATH_STRIPPER exec loop of RouteHelper._parse: scan left to
right with an anchored attempt at every position, the escaped-character
alternative first; unmatched characters accumulate into the pending
literal, flushed before each parameter token and at the end.  Fueled;
the fuel starts at the input length plus one and every step consumes at
least one character, so it never runs out. -/
def parseGo : Nat → List Char → List Char → Nat → List Token
  | 0, _, pathIt, _ => flushLit pathIt
  | _ + 1, [], pathIt, _ => flushLit pathIt
  | fuel + 1, '\\' :: c :: rest, pathIt, key =>
    if lineTerm c then parseGo fuel (c :: rest) (pathIt ++ ['\\']) key
    else parseGo fuel rest (pathIt ++ [c]) key
  | fuel + 1, c :: rest, pathIt, key =>
    match matchParamAt (c :: rest) with
    | some (pfx, im, rest2) =>
      flushLit pathIt ++ [mkToken key pfx im] ++
        parseGo fuel rest2 [] (if im.name.isSome then key else key + 1)
    | none => parseGo fuel rest (pathIt ++ [c]) key

def parseTokens (path : String) : List Token :=
  parseGo (path.data.length + 1) path.data [] 0

/-- The chunk of regex source one token contributes inside the loop of
RouteHelper._tokensToPathExp. -/
def tokenChunkL : Token → List Char
  | .lit s => escapeStringL s.data
  | .param _ pfx _ optional rep pattern =>
    let pfxE := escapeStringL pfx.data
    let cap0 := pattern.data
    let cap1 :=
      if rep then cap0 ++ ('(' :: '?' :: ':' :: pfxE) ++ cap0 ++ [')', '*'] else cap0
    if optional then
      if pfxE ≠ [] then ('(' :: '?' :: ':' :: pfxE) ++ ['('] ++ cap1 ++ [')', ')', '?']
      else ['('] ++ cap1 ++ [')', '?']
    else pfxE ++ ['('] ++ cap1 ++ [')']

/-- The endsWithSlash test of RouteHelper._tokensToPathExp: the last
token is a nonempty string whose last character is a slash. -/
def endsWithSlashB (tokens : List Token) : Bool :=
  match tokens.getLast? with
  | some (.lit s) => s.data.getLast? = some '/'
  | _ => false

/-- JS route.slice(0, -2). -/
def sliceDropTwo (cs : List Char) : List Char := cs.take (cs.length - 2)

/-- RouteHelper._tokensToPathExp: the regex source string it constructs
(with the default options stringToPathExp passes: strict false, end
true). -/
def tokensToPathExpL (tokens : List Token) (strict : Bool := false)
    (isEnd : Bool := true) : List Char :=
  let ews := endsWithSlashB tokens
  let route := (tokens.map tokenChunkL).flatten
  let route := if strict then route
    else (if ews then sliceDropTwo route else route) ++ "(?:\\/(?=$))?".data
  let route := if isEnd then route ++ ['$']
    else route ++ (if strict && ews then [] else "(?=\\/|$)".data)
  '^' :: route

def Token.isLit : Token → Bool
  | .lit _ => true
  | _ => false

/-- The keys attached to the compiled expression by
RouteHelper.stringToPathExp: the non-string tokens, in order. -/
def keysOf (tokens : List Token) : List Token := tokens.filter (fun t => !t.isLit)

/-- RouteHelper.stringToPathExp with default options: the source string
of the compiled regex. -/
def stringToPathExpSrc (path : String) : String := ⟨tokensToPathExpL (parseTokens path)⟩

inductive ScanMode where
  | norm | esc | paren
deriving DecidableEq, Repr

structure ScanSt where
  cnt : Nat
  mode : ScanMode
deriving DecidableEq, Repr

/-- One step of the capturing-group counter over regex source text: skip
escaped characters, classify every unescaped open parenthesis as
capturing unless its next character is a question mark.  (The sources
built by this compiler never put an unescaped parenthesis inside a
character class, so no class tracking is needed.) -/
def scanStep (st : ScanSt) (c : Char) : ScanSt :=
  match st.mode with
  | .norm =>
    if c = '\\' then ⟨st.cnt, .esc⟩
    else if c = '(' then ⟨st.cnt, .paren⟩
    else ⟨st.cnt, .norm⟩
  | .esc => ⟨st.cnt, .norm⟩
  | .paren =>
    if c = '?' then ⟨st.cnt, .norm⟩
    else if c = '\\' then ⟨st.cnt + 1, .esc⟩
    else if c = '(' then ⟨st.cnt + 1, .paren⟩
    else ⟨st.cnt + 1, .norm⟩

def scanL (st : ScanSt) (cs : List Char) : ScanSt := cs.foldl scanStep st

/-- Number of capturing groups in a regex source string. -/
def countCapturing (cs : List Char) : Nat :=
  let f := scanL ⟨0, .norm⟩ cs
  match f.mode with
  | .paren => f.cnt + 1
  | _ => f.cnt

/-! ## The Router: dynamic (navigation) layer

The compiled `PathExp` of a registered handler is represented by its
extensional behaviour: `test` (RegExp.prototype.test against the parsed
path) and `exec` (the captured groups, i.e. the JS match result minus
element 0, `none` for no match, `none` entries for unmatched optional
groups), plus the names of its attached keys.  The activate callback is a
pure function into `JsValue`; `_load` only ever compares its result
against `false`. -/

/-- Thrown JS errors distinguished by the router code. -/
inductive JsErr where
  | uriError
  | typeError
  | alreadyListening
  | invalidMode
  | notListening
deriving DecidableEq, Repr

/-- The values an activate callback can return, as far as the router
inspects them (the strict comparison next === false). -/
inductive JsValue where
  | vFalse
  | vTrue
  | vUndef
deriving DecidableEq, Repr

/-- The Request object handed to an activate callback. -/
structure Request where
  path : String
  query : List (String × String)
  queryString : String
  params : List (String × String)
  oldPath : Option String
deriving DecidableEq, Repr

/-- A registered handler as consulted during navigation: the compiled
pattern by its behaviour, plus the activate callback. -/
structure MHandler where
  test : String → Bool
  exec : String → Option (List (Option String))
  keyNames : List String
  activate : Request → JsValue

/-- Merged router options (Router._options after listen). -/
structure Opts where
  mode : String
  root : String
  silent : Bool
deriving DecidableEq, Repr

/-- The options argument of listen; absent fields are undefined. -/
structure OptionsIn where
  mode : Option String
  root : Option String
  silent : Option Bool
deriving DecidableEq, Repr

/-- The option merge in Router.listen: a supplied defined value wins,
else the default (mode hash, root /, silent false). -/
def mergeOptions (oin : OptionsIn) : Opts :=
  { mode := oin.mode.getD "hash"
    root := oin.root.getD "/"
    silent := oin.silent.getD false }

/-- The Router's static mutable state: _options (none when
undefined/null), _loadedPath, _handlers. -/
structure RouterState where
  options : Option Opts
  loadedPath : Option String
  handlers : List MHandler

/-- The initial state of the Router class: _options and _loadedPath
undefined, _handlers empty. -/
def initialRouterState : RouterState :=
  { options := none, loadedPath := none, handlers := [] }

/-- RouteHelper.parsePath.  The platform URL parser is modelled from the
spec (section 4.1): the fragment splits at its first question mark, the
URL resolver prepends a slash to the path part, parser.search is empty
or starts with the question mark; the path has slashes cleared and the
search is query-parsed (whose URIError propagates). -/
def parsePath (fragment : String) : Except JsErr Request :=
  let beforeQ := fragment.data.takeWhile (fun c => c ≠ '?')
  let afterQ := (fragment.data.dropWhile (fun c => c ≠ '?')).drop 1
  let search : String := if afterQ = [] then "" else ⟨'?' :: afterQ⟩
  match parseQuery search with
  | .error _ => .error .uriError
  | .ok q =>
    .ok { path := clearSlashes ⟨'/' :: beforeQ⟩
          query := q
          queryString := search
          params := []
          oldPath := none }

/-- The parameter-decoding loop of Router._extractRequest: for each
defined positional capture, read keys[i].name (a TypeError if there are
fewer keys than captures) and store the percent-decoded capture (a
URIError propagates). -/
def paramsGo (keys : List String) :
    List (Option String) → Nat → List (String × String) →
    Except JsErr (List (String × String))
  | [], _, acc => .ok acc
  | none :: rest, i, acc => paramsGo keys rest (i + 1) acc
  | some a :: rest, i, acc =>
    match keys[i]? with
    | none => .error .typeError
    | some k =>
      match decodeL a.data with
      | .error _ => .error .uriError
      | .ok d => paramsGo keys rest (i + 1) (setKey acc k ⟨d⟩)

/-- Router._extractRequest: parse the fragment again, then attach the
decoded parameters extracted by the handler's pattern. -/
def extractRequest (fragment : String) (h : MHandler) : Except JsErr Request :=
  match parsePath fragment with
  | .error e => .error e
  | .ok request =>
    match h.exec request.path with
    | none => .ok request
    | some args =>
      match paramsGo h.keyNames args 0 [] with
      | .error e => .error e
      | .ok ps => .ok { request with params := ps }

/-- The handler loop of Router._obtainRequestProcessors: every handler
whose pattern tests true against the parsed path contributes a request
processor, in registration order. -/
def obtainGo (parsedPathStr : String) (fragment : String) :
    List MHandler → Except JsErr (List (MHandler × Request))
  | [] => .ok []
  | h :: rest =>
    if h.test parsedPathStr then
      match extractRequest fragment h with
      | .error e => .error e
      | .ok req =>
        match obtainGo parsedPathStr fragment rest with
        | .error e => .error e
        | .ok tl => .ok ((h, req) :: tl)
    else obtainGo parsedPathStr fragment rest

/-- Router._obtainRequestProcessors. -/
def obtainRequestProcessors (st : RouterState) (fragment : String) :
    Except JsErr (List (MHandler × Request)) :=
  match parsePath fragment with
  | .error e => .error e
  | .ok parsedPath => obtainGo parsedPath.path fragment st.handlers

/-- The activate result of one request processor inside Router._load,
with oldPath set to the loaded path from before the call. -/
def vAt (old : Option String) (p : MHandler × Request) : JsValue :=
  p.1.activate { p.2 with oldPath := old }

/-- The processor loop of Router._load: returns (count, invoked) where
count is the JS count variable (incremented after each activate that did
not return false) and invoked is how many processors had their activate
called (the one returning false is called but not counted). -/
def runProcs (old : Option String) : List (MHandler × Request) → Nat × Nat
  | [] => (0, 0)
  | p :: rest =>
    if vAt old p = JsValue.vFalse then (0, 1)
    else
      let r := runProcs old rest
      (r.1 + 1, r.2 + 1)

/-- Router._load: obtain the processors, run the chain, set _loadedPath
to the path unconditionally, return whether count exceeded zero.  The
result carries (navigated, new state, number of activates invoked). -/
def loadRun (st : RouterState) (path : String) :
    Except JsErr (Bool × RouterState × Nat) :=
  match obtainRequestProcessors st path with
  | .error e => .error e
  | .ok procs =>
    let r := runProcs st.loadedPath procs
    .ok (decide (0 < r.1), { st with loadedPath := some path }, r.2)

/-- Router._loadCurrent, with the platform's getCurrent() value passed
in: skip (returning false, with no handler invoked) when the current
path strictly equals _loadedPath, else _load it. -/
def loadCurrentFn (st : RouterState) (currentPath : String) :
    Except JsErr (Bool × RouterState × Nat) :=
  if some currentPath = st.loadedPath then .ok (false, st, 0)
  else loadRun st currentPath

/-- Router.navigate: throw NotListening when _options is unset, else
clear slashes and _load (the location write is a platform effect with no
bearing on the router state).  Note there is no dedup guard here. -/
def navigate (st : RouterState) (path : String) :
    Except JsErr (Bool × RouterState × Nat) :=
  match st.options with
  | none => .error .notListening
  | some _ => loadRun st (clearSlashes path)

/-- Router.listen, with the platform's getCurrent() value passed in.
Mirrors the statement order of the source: the AlreadyListening guard on
_options, then the option merge is stored into _options, then the mode
switch (throwing InvalidMode on an unrecognized mode, after _options was
already set), then unless silent the initial _loadCurrent.  Returns the
state as left by the call together with the result or thrown error. -/
def listen (st : RouterState) (oin : OptionsIn) (currentPath : String) :
    RouterState × Except JsErr Bool :=
  match st.options with
  | some _ => (st, .error .alreadyListening)
  | none =>
    let o := mergeOptions oin
    let st1 := { st with options := some o }
    if o.mode = "history" ∨ o.mode = "hash" then
      if o.silent then (st1, .ok false)
      else
        match loadCurrentFn st1 currentPath with
        | .ok (b, st2, _) => (st2, .ok b)
        | .error e => (st1, .error e)
    else (st1, .error .invalidMode)

/-- Router.stop: reading _options.mode throws a TypeError when _options
is null or undefined; otherwise the platform listener is removed and the
state is fully reset (_handlers cleared, _loadedPath and _options set to
null). -/
def stop (st : RouterState) : Except JsErr RouterState :=
  match st.options with
  | none => .error .typeError
  | some _ => .ok { options := none, loadedPath := none, handlers := [] }

/-- Listening in the sense of the spec's state machine: the router holds
an active platform subscription.  addEventListener runs exactly when
_options is set with a recognized mode, and removeEventListener resets
_options, so this predicate tracks the subscription exactly. -/
def isListening (st : RouterState) : Bool :=
  match st.options with
  | some o => o.mode = "history" ∨ o.mode = "hash"
  | none => false

/-! ## The Router: registration layer

For the registration claims the compiled pattern is kept syntactically —
the regex source string and the keys stringToPathExp attaches — so that
handler lists are comparable values.  The activate callback is an opaque
payload `α`. -/

/-- A compiled PathExp as a value: the catch-all DEF_ROUTE regex /.*/ or
a compiled route with its regex source and keys. -/
inductive PathExpV where
  | defRoute
  | compiled (src : String) (keys : List Token)
deriving DecidableEq, Repr

/-- RouteHelper.stringToPathExp as a value. -/
def stringToPathExpV (path : String) : PathExpV :=
  .compiled ⟨tokensToPathExpL (parseTokens path)⟩ (keysOf (parseTokens path))

/-- A handler entry as stored in Router._handlers. -/
structure HandlerR (α : Type) where
  pathExp : PathExpV
  activate : α
deriving DecidableEq, Repr

/-- One member of a RouteGroup (RouteGroup.use pushes {path, activate});
path none models a member registered with a callback only (the JS code
then finds a function in the path field). -/
structure GroupEntry (α : Type) where
  path : Option String
  activate : α
deriving DecidableEq, Repr

/-- Router.use with a path string and an activate callback: clear
slashes, compile, push onto _handlers. -/
def usePath (hs : List (HandlerR α)) (path : String) (act : α) : List (HandlerR α) :=
  hs ++ [{ pathExp := stringToPathExpV (clearSlashes path), activate := act }]

/-- Router.use with a callback only: push the DEF_ROUTE handler. -/
def useDefault (hs : List (HandlerR α)) (act : α) : List (HandlerR α) :=
  hs ++ [{ pathExp := PathExpV.defRoute, activate := act }]

/-- Router._extractHandlers: flatten the group members in order into the
handlers holder (which defaults to the empty list), compiling
parent/member, member alone, parent alone, or DEF_ROUTE according to
which of the two paths are present. -/
def extractHandlers (parentPath : Option String) (g : List (GroupEntry α))
    (handlers : List (HandlerR α) := []) : List (HandlerR α) :=
  g.foldl (fun acc e =>
    let subPath := e.path.map clearSlashes
    let pathExp :=
      match parentPath, subPath with
      | none, none => PathExpV.defRoute
      | none, some sp => stringToPathExpV sp
      | some pp, none => stringToPathExpV pp
      | some pp, some sp => stringToPathExpV (pp ++ "/" ++ sp)
    acc ++ [{ pathExp := pathExp, activate := e.activate }]) handlers

/-- Router.use with a group (and an optional parent path, slash-cleared
when present): the source assigns the freshly extracted handlers to
this._handlers, so the previous handlers hs are discarded. -/
def useGroup (hs : List (HandlerR α)) (parentPath : Option String)
    (g : List (GroupEntry α)) : List (HandlerR α) :=
  extractHandlers (parentPath.map clearSlashes) g

/-! ## Concrete states used by the counterexamples and witnesses -/

/-- A handler whose pattern matches any path (the behaviour of DEF_ROUTE,
whose exec result has no capture groups) and whose activate returns
false. -/
def hFalse : MHandler :=
  { test := fun _ => true, exec := fun _ => some [], keyNames := [],
    activate := fun _ => JsValue.vFalse }

/-- A catch-all handler whose activate returns undefined. -/
def hPass : MHandler :=
  { test := fun _ => true, exec := fun _ => some [], keyNames := [],
    activate := fun _ => JsValue.vUndef }

/-- The default merged options. -/
def defOpts : Opts := { mode := "hash", root := "/", silent := false }

/-- A listening router with two catch-all handlers, the first of which
returns false. -/
def stTwoHandlers : RouterState :=
  { options := some defOpts, loadedPath := none, handlers := [hFalse, hPass] }

/-- The request built for the fragment "x" with no keys to extract. -/
def reqX : Request :=
  { path := "x", query := [("", "undefined")], queryString := "",
    params := [], oldPath := none }

/-- A listening router with loaded path "a" and one catch-all handler. -/
def stLoadedA : RouterState :=
  { options := some defOpts, loadedPath := some "a", handlers := [hPass] }

/-! ## C9 and C10 -/

/-- C9: after Router._load(path) completes, _loadedPath equals path —
including when zero handlers matched and when the chain was
short-circuited by a false return — since the source assigns
this._loadedPath = path unconditionally after the loop. -/
theorem load_advances_loadedPath (st : RouterState) (path : String)
    (b : Bool) (st2 : RouterState) (m : Nat)
    (h : loadRun st path = .ok (b, st2, m)) : st2.loadedPath = some path := by
  unfold loadRun at h
  cases ho : obtainRequestProcessors st path <;> rw [ho] at h
  · exact absurd h (by simp)
  · simp only [Except.ok.injEq, Prod.mk.injEq] at h
    rw [← h.2.1]

/-- Witness for C9 at the fragment "x" on a listening router with two
handlers whose first returns false: the load reports false, yet the
loaded path advances to "x". -/
theorem load_advances_loadedPath_w :
    loadRun stTwoHandlers "x" =
      .ok (false, { stTwoHandlers with loadedPath := some "x" }, 1) ∧
    ({ stTwoHandlers with loadedPath := some "x" } : RouterState).loadedPath = some "x" :=
  ⟨rfl, load_advances_loadedPath stTwoHandlers "x" false
    { stTwoHandlers with loadedPath := some "x" } 1 rfl⟩

/-- C10: Router.stop reads this._options.mode unguarded, so on a router
that was never started (options undefined) or already stopped (options
null) it throws a TypeError instead of acting as an idempotent no-op. -/
theorem stop_throws_on_null_options (st : RouterState)
    (h : st.options = none) : stop st = .error .typeError := by
  unfold stop
  rw [h]

/-- Witness for C10 at the never-started initial state. -/
theorem stop_throws_on_null_options_w :
    initialRouterState.options = none ∧
    stop initialRouterState = .error .typeError :=
  ⟨rfl, stop_throws_on_null_options initialRouterState rfl⟩

/-! ## Classification of the errors the load path can throw

Navigation can only throw URIError (percent-decoding) or TypeError
(missing key); in particular it never throws the configuration errors.
Used to settle the listen/stop/navigate claims. -/

theorem paramsGo_err (args : List (Option String)) :
    ∀ (keys : List String) (i : Nat) (acc : List (String × String)) (e : JsErr),
    paramsGo keys args i acc = .error e → e = .typeError ∨ e = .uriError := by
  induction args with
  | nil => intro keys i acc e h; simp [paramsGo] at h
  | cons a rest ih =>
    intro keys i acc e h
    cases a with
    | none =>
      simp only [paramsGo] at h
      exact ih keys (i + 1) acc e h
    | some s =>
      simp only [paramsGo] at h
      cases hk : keys[i]? with
      | none =>
        rw [hk] at h
        simp only [Except.error.injEq] at h
        exact Or.inl h.symm
      | some k =>
        rw [hk] at h
        cases hd : decodeL s.data with
        | error u =>
          rw [hd] at h
          simp only [Except.error.injEq] at h
          exact Or.inr h.symm
        | ok d =>
          rw [hd] at h
          exact ih keys (i + 1) (setKey acc k ⟨d⟩) e h

theorem parsePath_err (fragment : String) (e : JsErr)
    (h : parsePath fragment = .error e) : e = .typeError ∨ e = .uriError := by
  unfold parsePath at h
  dsimp only at h
  split at h
  · simp only [Except.error.injEq] at h
    exact Or.inr h.symm
  · simp at h

theorem extractRequest_err (fragment : String) (hh : MHandler) (e : JsErr)
    (h : extractRequest fragment hh = .error e) : e = .typeError ∨ e = .uriError := by
  unfold extractRequest at h
  split at h
  · rename_i hp
    simp only [Except.error.injEq] at h
    subst h
    exact parsePath_err fragment _ hp
  · split at h
    · simp at h
    · split at h
      · rename_i args hx xx e2 hq
        simp only [Except.error.injEq] at h
        subst h
        exact paramsGo_err args hh.keyNames 0 [] _ hq
      · simp at h

theorem obtainGo_err (hs : List MHandler) :
    ∀ (parsedPathStr fragment : String) (e : JsErr),
    obtainGo parsedPathStr fragment hs = .error e → e = .typeError ∨ e = .uriError := by
  induction hs with
  | nil => intro p f e h; simp [obtainGo] at h
  | cons hh rest ih =>
    intro p f e h
    unfold obtainGo at h
    by_cases ht : hh.test p
    · rw [if_pos ht] at h
      cases he : extractRequest f hh <;> rw [he] at h
      · simp only [Except.error.injEq] at h
        subst h
        exact extractRequest_err f hh _ he
      · cases hr : obtainGo p f rest <;> rw [hr] at h
        · simp only [Except.error.injEq] at h
          subst h
          exact ih p f _ hr
        · simp at h
    · rw [if_neg ht] at h
      exact ih p f e h

theorem loadRun_err (st : RouterState) (path : String) (e : JsErr)
    (h : loadRun st path = .error e) : e = .typeError ∨ e = .uriError := by
  unfold loadRun at h
  cases ho : obtainRequestProcessors st path <;> rw [ho] at h
  · simp only [Except.error.injEq] at h
    subst h
    unfold obtainRequestProcessors at ho
    cases hp : parsePath path <;> rw [hp] at ho
    · simp only [Except.error.injEq] at ho
      subst ho
      exact parsePath_err path _ hp
    · exact obtainGo_err st.handlers _ path _ ho
  · simp at h

theorem loadCurrentFn_err (st : RouterState) (cur : String) (e : JsErr)
    (h : loadCurrentFn st cur = .error e) : e = .typeError ∨ e = .uriError := by
  unfold loadCurrentFn at h
  by_cases hc : some cur = st.loadedPath
  · rw [if_pos hc] at h; simp at h
  · rw [if_neg hc] at h; exact loadRun_err st cur e h

/-! ## C7 -/

/-- C7: Router.stop on a listening router clears all registered
handlers, resets _loadedPath to null and _options to null (the idle
state), and a subsequent listen can never throw AlreadyListening, since
its guard tests the now-null _options. -/
theorem stop_full_reset (st : RouterState) (o : Opts) (h : st.options = some o) :
    stop st = .ok { options := none, loadedPath := none, handlers := [] } ∧
    ∀ (oin : OptionsIn) (cur : String),
      (listen { options := none, loadedPath := none, handlers := [] } oin cur).2 ≠
        .error .alreadyListening := by
  refine ⟨by unfold stop; rw [h], ?_⟩
  intro oin cur hcontra
  unfold listen at hcontra
  simp only at hcontra
  by_cases hm : (mergeOptions oin).mode = "history" ∨ (mergeOptions oin).mode = "hash"
  · rw [if_pos hm] at hcontra
    by_cases hsil : (mergeOptions oin).silent
    · rw [if_pos hsil] at hcontra; simp at hcontra
    · rw [if_neg hsil] at hcontra
      cases hl : loadCurrentFn
          { options := some (mergeOptions oin), loadedPath := none, handlers := [] } cur <;>
        rw [hl] at hcontra
      · simp only [Except.error.injEq] at hcontra
        rcases loadCurrentFn_err _ _ _ hl with he | he <;> rw [he] at hcontra <;> cases hcontra
      · simp at hcontra
  · rw [if_neg hm] at hcontra
    simp at hcontra

/-- Witness for C7: a listening router with default options, a loaded
path, and a handler; stop fully resets it, and listening again with hash
mode does not throw AlreadyListening. -/
theorem stop_full_reset_w :
    stLoadedA.options = some defOpts ∧
    stop stLoadedA = .ok { options := none, loadedPath := none, handlers := [] } ∧
    (listen { options := none, loadedPath := none, handlers := [] }
        { mode := some "hash", root := none, silent := none } "").2 ≠
      .error .alreadyListening :=
  ⟨rfl, (stop_full_reset stLoadedA defOpts rfl).1,
    (stop_full_reset stLoadedA defOpts rfl).2
      { mode := some "hash", root := none, silent := none } ""⟩

/-! ## C4 -/

/-- The router state after navigating to "z" in the half-started state
left by a listen whose mode was invalid. -/
def stAfterBogusNav : RouterState :=
  { options := some { mode := "bogus", root := "/", silent := false },
    loadedPath := some "z", handlers := [] }

/-- C4 counterexample: listen stores _options before validating the
mode, so after listen({mode:"bogus"}) throws InvalidMode the router is
left with _options set although no platform listener was attached (it is
not listening).  A second listen then throws AlreadyListening even
though the router is not listening, and navigate does not throw
NotListening — refuting the claim that the errors track the listening
state exactly. -/
theorem listen_guards_cex :
    (listen initialRouterState { mode := some "bogus", root := none, silent := none } "c").2 =
      .error .invalidMode ∧
    isListening
      (listen initialRouterState { mode := some "bogus", root := none, silent := none } "c").1 =
      false ∧
    (listen (listen initialRouterState
        { mode := some "bogus", root := none, silent := none } "c").1
        { mode := some "hash", root := none, silent := none } "c").2 =
      .error .alreadyListening ∧
    navigate (listen initialRouterState
        { mode := some "bogus", root := none, silent := none } "c").1 "z" ≠
      .error .notListening := by
  refine ⟨rfl, rfl, rfl, ?_⟩
  have hval : navigate (listen initialRouterState
      { mode := some "bogus", root := none, silent := none } "c").1 "z" =
      .ok (false, stAfterBogusNav, 0) := rfl
  intro hcontra
  rw [hval] at hcontra
  exact Except.noConfusion hcontra

/-- C4 (amended): the errors are guarded by the _options sentinel, not
by the listening state proper.  listen throws AlreadyListening exactly
when _options is set — which includes the state left behind by a listen
that failed with InvalidMode; from an unset state, listen with a mode
other than "hash"/"history" throws InvalidMode; navigate throws
NotListening exactly when _options is unset.  Each error is thrown to
the caller (given by the returned Except), never swallowed. -/
theorem listen_navigate_guards (st : RouterState) (oin : OptionsIn) (cur : String) :
    ((listen st oin cur).2 = .error .alreadyListening ↔ st.options ≠ none) ∧
    (st.options = none →
      ¬ ((mergeOptions oin).mode = "history" ∨ (mergeOptions oin).mode = "hash") →
      (listen st oin cur).2 = .error .invalidMode) ∧
    (∀ path, navigate st path = .error .notListening ↔ st.options = none) := by
  refine ⟨?_, ?_, ?_⟩
  · cases ho : st.options with
    | some o =>
      refine iff_of_true ?_ (by simp)
      simp only [listen, ho]
    | none =>
      simp only [listen, ho, ne_eq, not_true_eq_false, iff_false]
      intro hcontra
      by_cases hm : (mergeOptions oin).mode = "history" ∨ (mergeOptions oin).mode = "hash"
      · rw [if_pos hm] at hcontra
        by_cases hsil : (mergeOptions oin).silent
        · rw [if_pos hsil] at hcontra
          simp at hcontra
        · rw [if_neg hsil] at hcontra
          cases hl : loadCurrentFn { st with options := some (mergeOptions oin) } cur <;>
            rw [hl] at hcontra
          · simp only [Except.error.injEq] at hcontra
            rcases loadCurrentFn_err _ _ _ hl with he | he <;>
              rw [he] at hcontra <;> cases hcontra
          · simp at hcontra
      · rw [if_neg hm] at hcontra
        simp at hcontra
  · intro ho hm
    simp only [listen, ho]
    rw [if_neg hm]
  · intro path
    cases ho : st.options with
    | some o =>
      constructor
      · intro hcontra
        simp only [navigate, ho] at hcontra
        rcases loadRun_err _ _ _ hcontra with he | he <;> cases he
      · intro hcontra
        cases hcontra
    | none =>
      constructor
      · intro _
        rfl
      · intro _
        simp only [navigate, ho]

/-- Witness for C4 (amended) on a fresh router: no AlreadyListening from
the unset state, InvalidMode for a bogus mode, and navigate throws
NotListening. -/
theorem listen_navigate_guards_w :
    (¬ ((listen initialRouterState
        { mode := some "bogus", root := none, silent := none } "c").2 =
          .error .alreadyListening) ∧
      initialRouterState.options = none ∧
      (listen initialRouterState
        { mode := some "bogus", root := none, silent := none } "c").2 =
          .error .invalidMode) ∧
    navigate initialRouterState "z" = .error .notListening := by
  have h := listen_navigate_guards initialRouterState
    { mode := some "bogus", root := none, silent := none } "c"
  refine ⟨⟨fun hc => (h.1.mp hc) rfl, rfl, h.2.1 rfl (by decide)⟩, ?_⟩
  exact (h.2.2 "z").mpr rfl

/-! ## C2 -/

/-- C2 counterexample: navigate has no dedup guard.  On a listening
router whose loaded path is already "a", navigate("a") still calls _load
and invokes the matching handler (one activate runs and the call returns
true), refuting the claim that the skip applies to the navigate entry
point. -/
theorem navigate_no_dedup_cex :
    (navigate stLoadedA "a").toOption.map (fun r => (r.1, r.2.2)) = some (true, 1) := rfl

/-- C2 (amended): the dedup guard lives only in the event-driven entry
point Router._loadCurrent, which skips (returning false with no handler
invoked) when the current path equals _loadedPath; Router.navigate
performs _load unconditionally whenever the router is listening. -/
theorem dedup_guard_only_loadCurrent (st : RouterState) :
    (∀ cur : String, some cur = st.loadedPath → loadCurrentFn st cur = .ok (false, st, 0)) ∧
    (∀ (path : String) (o : Opts), st.options = some o →
      navigate st path = loadRun st (clearSlashes path)) := by
  constructor
  · intro cur hcur
    unfold loadCurrentFn
    rw [if_pos hcur]
  · intro path o ho
    simp only [navigate, ho]

/-- Witness for C2 (amended) on the listening router with loaded path
"a": the event entry point skips "a", and navigate("a") is exactly a
_load. -/
theorem dedup_guard_only_loadCurrent_w :
    (some "a" = stLoadedA.loadedPath ∧ loadCurrentFn stLoadedA "a" = .ok (false, stLoadedA, 0)) ∧
    (stLoadedA.options = some defOpts ∧
      navigate stLoadedA "a" = loadRun stLoadedA (clearSlashes "a")) :=
  ⟨⟨rfl, (dedup_guard_only_loadCurrent stLoadedA).1 "a" rfl⟩,
    ⟨rfl, (dedup_guard_only_loadCurrent stLoadedA).2 "a" defOpts rfl⟩⟩

/-! ## C1 -/

/-- The chain loop of Router._load when the first activate returning
false sits at position i: the processors 0..i-1 are invoked and counted,
processor i is invoked but not counted (the break precedes count++), and
nothing after i is invoked, so the loop yields count i with i+1
activates run. -/
theorem runProcs_firstFalse (old : Option String) :
    ∀ (procs : List (MHandler × Request)) (i : Nat) (pI : MHandler × Request),
    procs[i]? = some pI → vAt old pI = .vFalse →
    (∀ k pK, k < i → procs[k]? = some pK → vAt old pK ≠ .vFalse) →
    runProcs old procs = (i, i + 1) := by
  intro procs
  induction procs with
  | nil => intro i pI hi; simp at hi
  | cons p rest ih =>
    intro i pI hi hF hE
    cases i with
    | zero =>
      simp only [List.getElem?_cons_zero, Option.some.injEq] at hi
      subst hi
      simp [runProcs, hF]
    | succ j =>
      have hp : vAt old p ≠ .vFalse := hE 0 p (Nat.succ_pos j) (by simp)
      have hr := ih j pI (by simpa using hi) hF
        (fun k pK hk hpk => hE (k + 1) pK (Nat.succ_lt_succ hk) (by simpa using hpk))
      simp only [runProcs, if_neg hp, hr]

/-- C1 counterexample: two catch-all handlers where the first returns
false — its activate runs (one handler executed), the second is never
invoked, and _load returns false, not true; so "Load returns true iff at
least one handler executed" and "Load reports one handler executed" both
fail. -/
theorem load_shortCircuit_cex :
    (loadRun stTwoHandlers "x").toOption.map (fun r => (r.1, r.2.2)) = some (false, 1) := rfl

/-- C1 (amended): if the first matched handler whose activate returns
false sits at position i of the processor list, then handlers 0..i are
invoked (i+1 activates run), no later matched handler is invoked, and
Load returns true iff some handler executed without returning false,
i.e. iff i exceeds 0; in particular when the first handler returns
false, Load reports no handler executed and returns false. -/
theorem load_shortCircuit (st : RouterState) (path : String)
    (procs : List (MHandler × Request)) (i : Nat) (pI : MHandler × Request)
    (ho : obtainRequestProcessors st path = .ok procs)
    (hi : procs[i]? = some pI)
    (hF : vAt st.loadedPath pI = .vFalse)
    (hE : ∀ k pK, k < i → procs[k]? = some pK → vAt st.loadedPath pK ≠ .vFalse) :
    loadRun st path = .ok (decide (0 < i), { st with loadedPath := some path }, i + 1) := by
  simp only [loadRun, ho, runProcs_firstFalse st.loadedPath procs i pI hi hF hE]

/-- Witness for C1 (amended): the two-catch-all router, first handler
returning false at position 0 — one activate runs, the second handler is
not invoked, and the load returns false. -/
theorem load_shortCircuit_w :
    obtainRequestProcessors stTwoHandlers "x" = .ok [(hFalse, reqX), (hPass, reqX)] ∧
    ([(hFalse, reqX), (hPass, reqX)] : List (MHandler × Request))[0]? = some (hFalse, reqX) ∧
    vAt stTwoHandlers.loadedPath (hFalse, reqX) = .vFalse ∧
    loadRun stTwoHandlers "x" =
      .ok (decide (0 < 0), { stTwoHandlers with loadedPath := some "x" }, 0 + 1) := by
  refine ⟨rfl, rfl, rfl, ?_⟩
  exact load_shortCircuit stTwoHandlers "x" [(hFalse, reqX), (hPass, reqX)] 0 (hFalse, reqX)
    rfl rfl rfl (fun k pK hk _ => absurd hk (Nat.not_lt_zero k))

/-! ## C5 and C6 -/

/-- Whether an Except value is a success (no JS exception was thrown). -/
def exOk {ε α : Type} : Except ε α → Bool
  | .ok _ => true
  | .error _ => false

theorem parseQueryGo_ok (l : List (List Char)) :
    ∀ acc, exOk (parseQueryGo acc l) = l.all (fun s => exOk (decodePair s)) := by
  induction l with
  | nil => intro acc; rfl
  | cons s rest ih =>
    intro acc
    cases hd : decodePair s with
    | error e => simp [parseQueryGo, List.all_cons, exOk, hd]
    | ok kv =>
      obtain ⟨k, v⟩ := kv
      simp only [parseQueryGo, hd, List.all_cons, ih]
      simp [exOk]

/-- C5 counterexample: a malformed percent escape in the first pair of
the query throws a URIError that propagates out of parseQuery, losing
the rest of the fragment as well (the pair b=2 is never stored) —
refuting the claim of local recovery. -/
theorem parseQuery_throws_cex : parseQuery "a=%&b=2" = .error () := rfl

/-- C5 (amended): a failed percent-decode of any query key or value is
not recovered locally; the URIError propagates to the caller of
parseQuery and aborts the whole parse.  parseQuery succeeds exactly when
every ampersand-separated pair decodes. -/
theorem parseQuery_decode_failure (queryString : String) :
    exOk (parseQuery queryString) =
      (queryPairs queryString).all (fun s => exOk (decodePair s)) := by
  unfold parseQuery
  exact parseQueryGo_ok (queryPairs queryString) []

theorem jsSplitChars_no_sep (sep : Char) : ∀ s : List Char,
    s.contains sep = false → jsSplitChars sep s = [s] := by
  intro s
  induction s with
  | nil => intro _; rfl
  | cons c rest ih =>
    intro h
    simp only [List.contains_cons, Bool.or_eq_false_iff] at h
    have hne : c ≠ sep := Ne.symm (by simpa using h.1)
    simp [jsSplitChars, ih h.2, hne]

/-- C6 counterexample: the query "a" has no =value part; the JS code
stores decodeURIComponent(undefined), and ToString(undefined) is the
string "undefined" — so the key maps to the present string "undefined",
not to an absent/undefined value as the claim says. -/
theorem parseQuery_no_eq_cex : parseQuery "a" = .ok [("a", "undefined")] := rfl

/-- C6 (amended): for a query consisting of one pair with no equals
sign, the key is percent-decoded and its value is the literal string
"undefined" (the JS ToString coercion of the undefined pair[1] inside
decodeURIComponent); key and value are decoded independently. -/
theorem parseQuery_no_eq_value (s : List Char) (k : List Char)
    (h1 : s.contains '=' = false) (h2 : s.contains '&' = false)
    (h3 : s.head? ≠ some '?') (hd : decodeL s = .ok k) :
    parseQuery ⟨s⟩ = .ok [(⟨k⟩, "undefined")] := by
  have hstrip : (match (⟨s⟩ : String).data with
      | '?' :: rest => rest
      | l => l) = s := by
    split
    · rename_i rest heq
      rw [show (⟨s⟩ : String).data = s from rfl] at heq
      rw [heq] at h3
      exact absurd rfl h3
    · rfl
  have hdp : decodePair s = .ok (⟨k⟩, "undefined") := by
    unfold decodePair
    rw [jsSplitChars_no_sep '=' s h1]
    simp only [List.headD_cons, List.getElem?_cons_succ, List.getElem?_nil]
    rw [hd]
    rfl
  unfold parseQuery queryPairs
  rw [hstrip, jsSplitChars_no_sep '&' s h2]
  simp [parseQueryGo, hdp, setKey]

/-- Witness for C6 (amended): the pair a%41 — key decodes to aA, and the
value comes out as the string "undefined". -/
theorem parseQuery_no_eq_value_w :
    ("a%41".data.contains '=' = false ∧ "a%41".data.contains '&' = false ∧
      "a%41".data.head? ≠ some '?' ∧ decodeL "a%41".data = .ok "aA".data) ∧
    parseQuery ⟨"a%41".data⟩ = .ok [(⟨"aA".data⟩, "undefined")] :=
  ⟨⟨by decide, by decide, by decide, rfl⟩,
    parseQuery_no_eq_value "a%41".data "aA".data (by decide) (by decide)
      (by decide) rfl⟩

/-! ## C3 -/

/-- A previously registered handler (for the path "z"). -/
def priorH : HandlerR Nat := { pathExp := stringToPathExpV "z", activate := 0 }

/-- C3: evaluating Router.use at the failing input.  On a router that
already holds the handler for "z", registering the group [a → 1, b → 2]
under the prefix "p" REPLACES the whole handler list with the two
flattened members (the source assigns this._handlers =
this._extractHandlers(parentPath, activate), whose holder argument
defaults to the empty array), whereas registering p/a then p/b
separately appends, keeping the prior handler.  The group members
themselves are flattened in order, compiled from parent + "/" + member
exactly as the separate registrations compile their paths. -/
theorem use_group_replaces_handlers :
    useGroup [priorH] (some "p") [{ path := some "a", activate := 1 },
        { path := some "b", activate := 2 }] =
      [{ pathExp := stringToPathExpV "p/a", activate := 1 },
        { pathExp := stringToPathExpV "p/b", activate := 2 }] ∧
    usePath (usePath [priorH] "p/a" 1) "p/b" 2 =
      [priorH, { pathExp := stringToPathExpV "p/a", activate := 1 },
        { pathExp := stringToPathExpV "p/b", activate := 2 }] :=
  ⟨rfl, rfl⟩

/-! ## C8: capturing groups versus keys

The count proceeds in two steps: a scan lemma shows each token
contributes exactly one capturing group when it is a parameter and none
when it is a literal, provided its pieces are escape-clean; a parse
lemma shows every token produced from a route string without
backslashes and without a "(?" digram is escape-clean. -/

/-- Well-formedness of the raw sub-pattern attached to a parameter
token: nonempty, not starting with a quantifier question mark, and free
of backslashes. -/
def rawOK (raw : List Char) : Prop :=
  raw ≠ [] ∧ raw.head? ≠ some '?' ∧ '\\' ∉ raw

/-- Escape-cleanliness of a token: a literal carries no backslash, and a
parameter's pattern is the group-escape of a well-formed raw pattern
with one of the three possible prefixes. -/
def tokOK : Token → Prop
  | .lit s => '\\' ∉ s.data
  | .param _ pfx _ _ _ pattern =>
    (pfx = "" ∨ pfx = "/" ∨ pfx = ".") ∧
    ∃ raw, rawOK raw ∧ pattern.data = escapeGroupL raw

theorem scanL_append (st : ScanSt) (a b : List Char) :
    scanL st (a ++ b) = scanL (scanL st a) b := by
  simp [scanL, List.foldl_append]

theorem scan_escStr (s : List Char) (h : '\\' ∉ s) (k : Nat) :
    scanL ⟨k, .norm⟩ (escapeStringL s) = ⟨k, .norm⟩ := by
  induction s with
  | nil => rfl
  | cons c rest ih =>
    have hc : c ≠ '\\' := fun hcc => h (hcc ▸ List.mem_cons_self c rest)
    have hrest : '\\' ∉ rest := fun hm => h (List.mem_cons_of_mem c hm)
    show scanL ⟨k, .norm⟩
      ((if escStrSpecial c then ['\\', c] else [c]) ++ escapeStringL rest) = _
    rw [scanL_append]
    by_cases hs : escStrSpecial c
    · rw [if_pos hs]
      rw [show scanL ⟨k, .norm⟩ ['\\', c] = ⟨k, .norm⟩ from rfl]
      exact ih hrest
    · rw [if_neg hs]
      have hp : c ≠ '(' := fun hcc => hs (by rw [hcc]; decide)
      rw [show scanL ⟨k, .norm⟩ [c] = scanStep ⟨k, .norm⟩ c from rfl]
      rw [show scanStep ⟨k, .norm⟩ c =
        (if c = '\\' then ⟨k, .esc⟩ else if c = '(' then ⟨k, .paren⟩
          else ⟨k, .norm⟩ : ScanSt) from rfl]
      rw [if_neg hc, if_neg hp]
      exact ih hrest

theorem scan_escGroup_norm (s : List Char) (h : '\\' ∉ s) (k : Nat) :
    scanL ⟨k, .norm⟩ (escapeGroupL s) = ⟨k, .norm⟩ := by
  induction s with
  | nil => rfl
  | cons c rest ih =>
    have hc : c ≠ '\\' := fun hcc => h (hcc ▸ List.mem_cons_self c rest)
    have hrest : '\\' ∉ rest := fun hm => h (List.mem_cons_of_mem c hm)
    show scanL ⟨k, .norm⟩
      ((if escGroupSpecial c then ['\\', c] else [c]) ++ escapeGroupL rest) = _
    rw [scanL_append]
    by_cases hs : escGroupSpecial c
    · rw [if_pos hs]
      rw [show scanL ⟨k, .norm⟩ ['\\', c] = ⟨k, .norm⟩ from rfl]
      exact ih hrest
    · rw [if_neg hs]
      have hp : c ≠ '(' := fun hcc => hs (by rw [hcc]; decide)
      rw [show scanL ⟨k, .norm⟩ [c] = scanStep ⟨k, .norm⟩ c from rfl]
      rw [show scanStep ⟨k, .norm⟩ c =
        (if c = '\\' then ⟨k, .esc⟩ else if c = '(' then ⟨k, .paren⟩
          else ⟨k, .norm⟩ : ScanSt) from rfl]
      rw [if_neg hc, if_neg hp]
      exact ih hrest

theorem scan_escGroup_paren (s : List Char) (h : '\\' ∉ s) (hne : s ≠ [])
    (hq : s.head? ≠ some '?') (k : Nat) :
    scanL ⟨k, .paren⟩ (escapeGroupL s) = ⟨k + 1, .norm⟩ := by
  cases s with
  | nil => exact absurd rfl hne
  | cons c rest =>
    have hc : c ≠ '\\' := fun hcc => h (hcc ▸ List.mem_cons_self c rest)
    have hrest : '\\' ∉ rest := fun hm => h (List.mem_cons_of_mem c hm)
    have hq2 : c ≠ '?' := fun hh => hq (by rw [hh]; rfl)
    show scanL ⟨k, .paren⟩
      ((if escGroupSpecial c then ['\\', c] else [c]) ++ escapeGroupL rest) = _
    rw [scanL_append]
    by_cases hs : escGroupSpecial c
    · rw [if_pos hs]
      rw [show scanL ⟨k, .paren⟩ ['\\', c] = ⟨k + 1, .norm⟩ from rfl]
      exact scan_escGroup_norm rest hrest (k + 1)
    · rw [if_neg hs]
      have hp : c ≠ '(' := fun hcc => hs (by rw [hcc]; decide)
      rw [show scanL ⟨k, .paren⟩ [c] = scanStep ⟨k, .paren⟩ c from rfl]
      rw [show scanStep ⟨k, .paren⟩ c =
        (if c = '?' then ⟨k, .norm⟩ else if c = '\\' then ⟨k + 1, .esc⟩
          else if c = '(' then ⟨k + 1, .paren⟩ else ⟨k + 1, .norm⟩ : ScanSt) from rfl]
      rw [if_neg hq2, if_neg hc, if_neg hp]
      exact scan_escGroup_norm rest hrest (k + 1)

theorem scan_qmc (k : Nat) (l : List Char) :
    scanL ⟨k, .norm⟩ ('(' :: '?' :: ':' :: l) = scanL ⟨k, .norm⟩ l := rfl

theorem scan_cap1 (pattern pfxE : List Char) (rep : Bool)
    (hpat_paren : ∀ m, scanL ⟨m, .paren⟩ pattern = ⟨m + 1, .norm⟩)
    (hpat_norm : ∀ m, scanL ⟨m, .norm⟩ pattern = ⟨m, .norm⟩)
    (hpfx : ∀ m, scanL ⟨m, .norm⟩ pfxE = ⟨m, .norm⟩) (k : Nat) :
    scanL ⟨k, .paren⟩
      (if rep then pattern ++ ('(' :: '?' :: ':' :: pfxE) ++ pattern ++ [')', '*']
       else pattern) = ⟨k + 1, .norm⟩ := by
  cases rep with
  | false => exact hpat_paren k
  | true =>
    rw [if_pos rfl]
    simp only [scanL_append]
    rw [hpat_paren k, scan_qmc, hpfx (k + 1), hpat_norm (k + 1)]
    rfl

theorem scan_tokenChunk (t : Token) (h : tokOK t) (k : Nat) :
    scanL ⟨k, .norm⟩ (tokenChunkL t) = ⟨k + (if t.isLit then 0 else 1), .norm⟩ := by
  cases t with
  | lit s =>
    rw [show (Token.lit s).isLit = true from rfl, if_pos rfl]
    simpa using scan_escStr s.data h k
  | param name pfx delim optional rep pattern =>
    obtain ⟨hpfx, raw, ⟨hne, hq, hbs⟩, hpat⟩ := h
    have hpat_paren : ∀ m, scanL ⟨m, .paren⟩ pattern.data = ⟨m + 1, .norm⟩ := fun m => by
      rw [hpat]; exact scan_escGroup_paren raw hbs hne hq m
    have hpat_norm : ∀ m, scanL ⟨m, .norm⟩ pattern.data = ⟨m, .norm⟩ := fun m => by
      rw [hpat]; exact scan_escGroup_norm raw hbs m
    have hbs2 : '\\' ∉ pfx.data := by
      rcases hpfx with h0 | h0 | h0 <;> rw [h0] <;> decide
    have hpfxE : ∀ m, scanL ⟨m, .norm⟩ (escapeStringL pfx.data) = ⟨m, .norm⟩ :=
      fun m => scan_escStr pfx.data hbs2 m
    rw [show (Token.param name pfx delim optional rep pattern).isLit = false from rfl]
    rw [if_neg (by simp)]
    simp only [tokenChunkL]
    cases optional with
    | true =>
      rw [if_pos rfl]
      by_cases hpe : escapeStringL pfx.data ≠ []
      · rw [if_pos hpe]
        simp only [scanL_append]
        rw [scan_qmc, hpfxE k]
        rw [show scanL ⟨k, .norm⟩ ['('] = ⟨k, .paren⟩ from rfl]
        rw [scan_cap1 pattern.data (escapeStringL pfx.data) rep hpat_paren hpat_norm hpfxE k]
        rfl
      · rw [if_neg hpe]
        simp only [scanL_append]
        rw [show scanL ⟨k, .norm⟩ ['('] = ⟨k, .paren⟩ from rfl]
        rw [scan_cap1 pattern.data (escapeStringL pfx.data) rep hpat_paren hpat_norm hpfxE k]
        rfl
    | false =>
      rw [if_neg (by simp)]
      simp only [scanL_append]
      rw [hpfxE k]
      rw [show scanL ⟨k, .norm⟩ ['('] = ⟨k, .paren⟩ from rfl]
      rw [scan_cap1 pattern.data (escapeStringL pfx.data) rep hpat_paren hpat_norm hpfxE k]
      rfl

/-- The number of keys stringToPathExp attaches: one per non-literal token. -/
def nKeys (tokens : List Token) : Nat := (keysOf tokens).length

theorem scan_flatten (tokens : List Token) (h : ∀ t ∈ tokens, tokOK t) (k : Nat) :
    scanL ⟨k, .norm⟩ (tokens.map tokenChunkL).flatten = ⟨k + nKeys tokens, .norm⟩ := by
  induction tokens generalizing k with
  | nil => simp [nKeys, keysOf]; rfl
  | cons t ts ih =>
    simp only [List.map_cons, List.flatten_cons, scanL_append]
    rw [scan_tokenChunk t (h t (List.mem_cons_self t ts)) k]
    rw [ih (fun t2 ht2 => h t2 (List.mem_cons_of_mem t ht2))]
    cases hl : t.isLit with
    | true =>
      cases t with
      | lit s => simp [nKeys, keysOf, Token.isLit]
      | param a b c d e f => simp [Token.isLit] at hl
    | false =>
      cases t with
      | lit s => simp [Token.isLit] at hl
      | param a b c d e f =>
        simp only [nKeys, keysOf, List.filter_cons]
        simp [Token.isLit]
        omega

theorem escapeStringL_append (a b : List Char) :
    escapeStringL (a ++ b) = escapeStringL a ++ escapeStringL b := by
  simp [escapeStringL, List.flatMap_append]

theorem sliceDropTwo_append (X : List Char) (a b : Char) :
    sliceDropTwo (X ++ [a, b]) = X := by
  unfold sliceDropTwo
  rw [List.length_append]
  simp

theorem getLast?_decomp {α : Type} :
    ∀ (l : List α) (a : α), l.getLast? = some a → l = l.dropLast ++ [a] := by
  intro l
  induction l with
  | nil => intro a h; cases h
  | cons x xs ih =>
    intro a h
    cases xs with
    | nil =>
      cases h
      rfl
    | cons y ys =>
      rw [List.getLast?_cons_cons] at h
      have h2 := ih a h
      show x :: (y :: ys) = (x :: y :: ys).dropLast ++ [a]
      rw [show (x :: y :: ys).dropLast = x :: (y :: ys).dropLast from rfl]
      rw [List.cons_append]
      exact congrArg (x :: ·) h2

/-- The capturing groups of the compiled source equal the attached keys,
for any escape-clean token list. -/
theorem countCap_tokens (tokens : List Token) (h : ∀ t ∈ tokens, tokOK t) :
    countCapturing (tokensToPathExpL tokens) = nKeys tokens := by
  have hstep : ∀ l : List Char, scanL ⟨0, .norm⟩ ('^' :: l) = scanL ⟨0, .norm⟩ l :=
    fun l => rfl
  have hsfx : ∀ m, scanL ⟨m, .norm⟩ "(?:\\/(?=$))?".data = ⟨m, .norm⟩ := fun m => rfl
  have hdol : ∀ m, scanL ⟨m, .norm⟩ ['$'] = ⟨m, .norm⟩ := fun m => rfl
  have hcount : ∀ cs : List Char, scanL ⟨0, .norm⟩ cs = ⟨nKeys tokens, .norm⟩ →
      countCapturing cs = nKeys tokens := by
    intro cs hcs
    unfold countCapturing
    rw [hcs]
  cases hE : endsWithSlashB tokens with
  | false =>
    have hbody : tokensToPathExpL tokens =
        '^' :: (((tokens.map tokenChunkL).flatten ++ "(?:\\/(?=$))?".data) ++ ['$']) := by
      unfold tokensToPathExpL
      dsimp only
      rw [hE]
      rfl
    rw [hbody]
    apply hcount
    rw [hstep, scanL_append, scanL_append, scan_flatten tokens h 0, hsfx, hdol]
    simp
  | true =>
    have hE2 := hE
    unfold endsWithSlashB at hE
    cases hG : tokens.getLast? with
    | none => rw [hG] at hE; cases hE
    | some t0 =>
      rw [hG] at hE
      cases t0 with
      | param a b c d e f => simp at hE
      | lit s =>
        have hslash : s.data.getLast? = some '/' := by simpa using hE
        have htok : tokens = tokens.dropLast ++ [Token.lit s] := getLast?_decomp tokens _ hG
        have hsdata : s.data = s.data.dropLast ++ ['/'] := getLast?_decomp s.data '/' hslash
        have hlit : tokOK (Token.lit s) := by
          apply h
          rw [htok]
          exact List.mem_append_right _ (List.mem_cons_self _ _)
        have hbsd : '\\' ∉ s.data.dropLast :=
          fun hm => hlit ((List.dropLast_sublist s.data).subset hm)
        have hts : ∀ t2 ∈ tokens.dropLast, tokOK t2 :=
          fun t2 ht2 => h t2 ((List.dropLast_sublist tokens).subset ht2)
        have hflat : (tokens.map tokenChunkL).flatten =
            ((tokens.dropLast.map tokenChunkL).flatten ++ escapeStringL s.data.dropLast)
              ++ ['\\', '/'] := by
          conv_lhs => rw [htok]
          rw [List.map_append, List.flatten_append]
          rw [show (([Token.lit s]).map tokenChunkL).flatten = escapeStringL s.data from
            by simp [tokenChunkL]]
          conv_lhs => rw [hsdata]
          rw [escapeStringL_append]
          rw [show escapeStringL ['/'] = ['\\', '/'] from rfl]
          rw [List.append_assoc]
        have hnk : nKeys tokens = nKeys tokens.dropLast := by
          conv_lhs => rw [htok]
          simp [nKeys, keysOf, List.filter_append, Token.isLit]
        have hbody : tokensToPathExpL tokens =
            '^' :: ((sliceDropTwo (tokens.map tokenChunkL).flatten ++
              "(?:\\/(?=$))?".data) ++ ['$']) := by
          unfold tokensToPathExpL
          dsimp only
          rw [hE2]
          rfl
        rw [hbody, hflat, sliceDropTwo_append]
        apply hcount
        rw [hnk]
        rw [hstep]
        simp only [scanL_append]
        rw [scan_flatten tokens.dropLast hts 0, scan_escStr _ hbsd, hsfx, hdol]
        simp

/-- Whether the char list contains an open parenthesis immediately
followed by a question mark; a route string without this digram (and
without backslashes) compiles every custom capture group to a pattern
not starting with a quantifier. -/
def hasOpenQ : List Char → Bool
  | [] => false
  | c :: rest => (c = '(' && rest.head? = some '?') || hasOpenQ rest

theorem hasOpenQ_tail (c : Char) (l : List Char)
    (h : hasOpenQ (c :: l) = false) : hasOpenQ l = false := by
  simp only [hasOpenQ, Bool.or_eq_false_iff] at h
  exact h.2

theorem hasOpenQ_suffix : ∀ (x y : List Char),
    hasOpenQ (x ++ y) = false → hasOpenQ y = false := by
  intro x
  induction x with
  | nil => intro y h; exact h
  | cons c rest ih => intro y h; exact ih y (hasOpenQ_tail c (rest ++ y) h)

theorem mem_of_suffix {α : Type} {a : α} {l1 l2 : List α}
    (hs : l1 <:+ l2) (h : a ∈ l1) : a ∈ l2 := hs.subset h

theorem mgc_cons_backslash (c : Char) (rest : List Char) :
    mgc ('\\' :: c :: rest) =
      if lineTerm c then
        match mgc (c :: rest) with
        | some (content, r) => some ('\\' :: content, r)
        | none => none
      else
        match mgc rest with
        | some (content, r) => some ('\\' :: c :: content, r)
        | none =>
          match mgc (c :: rest) with
          | some (content, r) => some ('\\' :: content, r)
          | none => none := rfl

theorem mgc_shape : ∀ (cs : List Char), ∀ (content r : List Char),
    mgc cs = some (content, r) → cs = content ++ ')' :: r := by
  intro cs
  induction cs using mgc.induct with
  | case1 =>
    intro content r h
    cases h
  | case2 rest =>
    intro content r h
    rw [show mgc (')' :: rest) = some ([], rest) from rfl] at h
    simp only [Option.some.injEq, Prod.mk.injEq] at h
    obtain ⟨h1, h2⟩ := h
    subst h1
    subst h2
    rfl
  | case3 tl =>
    intro content r h
    rw [show mgc ('(' :: tl) = none from rfl] at h
    cases h
  | case4 c rest hlt content1 r1 hrec ih1 =>
    intro content r h
    rw [mgc_cons_backslash, if_pos hlt, hrec] at h
    simp only [Option.some.injEq, Prod.mk.injEq] at h
    obtain ⟨h1, h2⟩ := h
    subst h1
    subst h2
    rw [List.cons_append]
    exact congrArg ('\\' :: ·) (ih1 content1 r1 hrec)
  | case5 c rest hlt hnone ih1 =>
    intro content r h
    rw [mgc_cons_backslash, if_pos hlt, hnone] at h
    cases h
  | case6 c rest hlt content1 r1 hrec ih1 =>
    intro content r h
    rw [mgc_cons_backslash, if_neg hlt, hrec] at h
    simp only [Option.some.injEq, Prod.mk.injEq] at h
    obtain ⟨h1, h2⟩ := h
    subst h1
    subst h2
    rw [List.cons_append, List.cons_append]
    exact congrArg (fun l => '\\' :: c :: l) (ih1 content1 r1 hrec)
  | case7 c rest hlt hnone content1 r1 hrec ih2 ih1 =>
    intro content r h
    rw [mgc_cons_backslash, if_neg hlt, hnone, hrec] at h
    simp only [Option.some.injEq, Prod.mk.injEq] at h
    obtain ⟨h1, h2⟩ := h
    subst h1
    subst h2
    rw [List.cons_append]
    exact congrArg ('\\' :: ·) (ih1 content1 r1 hrec)
  | case8 c rest hlt hnone1 hnone2 ih2 ih1 =>
    intro content r h
    rw [mgc_cons_backslash, if_neg hlt, hnone1, hnone2] at h
    cases h
  | case9 c rest hnp hno hnb content1 r1 hrec ih1 =>
    intro content r h
    rw [mgc.eq_def] at h
    split at h
    · rename_i heq
      cases heq
    · rename_i rest2 heq
      injection heq with hc hr
      exact absurd hc (fun hcc => hnp hcc)
    · rename_i tl heq
      injection heq with hc hr
      exact absurd hc (fun hcc => hno hcc)
    · rename_i c2 rest2 heq
      injection heq with hc hr
      exact absurd hr (fun hrr => hnb c2 rest2 hc hrr)
    · rename_i c2 rest2 h1 h2 h3 heq
      injection heq with hc hr
      subst hc
      subst hr
      rw [hrec] at h
      simp only [Option.some.injEq, Prod.mk.injEq] at h
      obtain ⟨h1, h2⟩ := h
      subst h1
      subst h2
      rw [List.cons_append]
      exact congrArg (c :: ·) (ih1 content1 r1 hrec)
  | case10 c rest hnp hno hnb hnone ih1 =>
    intro content r h
    rw [mgc.eq_def] at h
    split at h
    · rename_i heq
      cases heq
    · rename_i rest2 heq
      injection heq with hc hr
      exact absurd hc (fun hcc => hnp hcc)
    · rename_i tl heq
      injection heq with hc hr
      exact absurd hc (fun hcc => hno hcc)
    · rename_i c2 rest2 heq
      injection heq with hc hr
      exact absurd hr (fun hrr => hnb c2 rest2 hc hrr)
    · rename_i c2 rest2 h1 h2 h3 heq
      injection heq with hc hr
      subst hc
      subst hr
      rw [hnone] at h
      cases h

theorem matchGroup_shape (cs content r : List Char)
    (h : matchGroup cs = some (content, r)) :
    content ≠ [] ∧ cs = content ++ ')' :: r := by
  unfold matchGroup at h
  cases hm : mgc cs with
  | none =>
    rw [hm] at h
    cases h
  | some cr =>
    obtain ⟨content1, r1⟩ := cr
    rw [hm] at h
    cases content1 with
    | nil => simp at h
    | cons c0 cr1 =>
      simp only [Option.some.injEq, Prod.mk.injEq] at h
      obtain ⟨h1, h2⟩ := h
      subst h1
      subst h2
      exact ⟨by simp, mgc_shape cs _ _ hm⟩

theorem readSuffix_suffix (cs : List Char) : (readSuffix cs).2 <:+ cs := by
  cases cs with
  | nil => exact List.suffix_rfl
  | cons c rest =>
    show (if c = '+' || c = '*' || c = '?' then (some c, rest)
      else (none, c :: rest)).2 <:+ c :: rest
    by_cases h : c = '+' || c = '*' || c = '?'
    · rw [if_pos h]
      exact List.suffix_cons c rest
    · rw [if_neg h]

theorem dropWhile_suffix {α : Type} (p : α → Bool) :
    ∀ l : List α, l.dropWhile p <:+ l := by
  intro l
  induction l with
  | nil => exact List.suffix_rfl
  | cons x xs ih =>
    rw [List.dropWhile_cons]
    by_cases h : p x
    · rw [if_pos h]
      exact ih.trans (List.suffix_cons x xs)
    · rw [if_neg h]

theorem hasOpenQ_of_suffix {x y : List Char} (hs : y <:+ x)
    (h : hasOpenQ x = false) : hasOpenQ y = false := by
  obtain ⟨p, hp⟩ := hs
  exact hasOpenQ_suffix p y (hp ▸ h)

theorem not_mem_of_suffix {α : Type} {a : α} {l1 l2 : List α}
    (hs : l1 <:+ l2) (h : a ∉ l2) : a ∉ l1 := fun hm => h (hs.subset hm)

/-- The parenthesis-head fact extracted from the absence of the "(?"
digram: a capture group opening at the head of the suffix cannot be
followed by a question mark. -/
theorem headq_of_hasOpenQ {t : List Char} (h : hasOpenQ ('(' :: t) = false) :
    t.head? ≠ some '?' := by
  simp only [hasOpenQ, Bool.or_eq_false_iff, Bool.and_eq_false_iff] at h
  rcases h.1 with h1 | h1
  · simp at h1
  · simpa using h1

/-- Facts about a successful anchored parameter-body match: the
remainder is a suffix of the input, and under the backslash-free and
no-"(?" hypotheses a custom capture content is well formed. -/
theorem matchInner_facts (cs : List Char) (im : InnerMatch) (r : List Char)
    (hm : matchInner cs = some (im, r)) :
    r <:+ cs ∧
    (∀ content, im.cap = some content → '\\' ∉ cs → hasOpenQ cs = false →
      content ≠ [] ∧ content.head? ≠ some '?' ∧ '\\' ∉ content) := by
  rw [matchInner.eq_def] at hm
  split at hm
  · rename_i rest
    dsimp only at hm
    by_cases hnm : List.takeWhile wordChar rest = []
    · rw [if_pos hnm] at hm
      cases hm
    · rw [if_neg hnm] at hm
      split at hm
      · rename_i t heq
        split at hm
        · rename_i content rest3 heq2
          simp only [Option.some.injEq, Prod.mk.injEq] at hm
          obtain ⟨him, hr⟩ := hm
          subst hr
          obtain ⟨hcne, hshape⟩ := matchGroup_shape t content rest3 heq2
          have hs1 : (readSuffix rest3).2 <:+ rest3 := readSuffix_suffix rest3
          have hs2 : rest3 <:+ t := by
            rw [hshape]
            exact (List.suffix_cons ')' rest3).trans (List.suffix_append _ _)
          have hs3 : t <:+ rest := by
            have hd := dropWhile_suffix wordChar rest
            rw [heq] at hd
            exact (List.suffix_cons '(' t).trans hd
          refine ⟨((hs1.trans hs2).trans hs3).trans (List.suffix_cons ':' rest), ?_⟩
          intro content2 hcap hbs hq
          rw [← him] at hcap
          simp only [Option.some.injEq] at hcap
          subst hcap
          have hbs2 : '\\' ∉ t :=
            not_mem_of_suffix hs3 (fun hmem => hbs (List.mem_cons_of_mem ':' hmem))
          have hqt : hasOpenQ ('(' :: t) = false := by
            have hd := dropWhile_suffix wordChar rest
            rw [heq] at hd
            exact hasOpenQ_of_suffix hd (hasOpenQ_tail ':' rest hq)
          have hheadq : t.head? ≠ some '?' := headq_of_hasOpenQ hqt
          refine ⟨hcne, ?_, ?_⟩
          · cases content with
            | nil => exact absurd rfl hcne
            | cons c0 cr =>
              intro hh
              simp only [List.head?_cons, Option.some.injEq] at hh
              subst hh
              apply hheadq
              rw [hshape]
              rfl
          · intro hmem
            apply hbs2
            rw [hshape]
            exact List.mem_append_left _ hmem
        · rename_i heq2
          simp only [Option.some.injEq, Prod.mk.injEq] at hm
          obtain ⟨him, hr⟩ := hm
          subst hr
          refine ⟨((readSuffix_suffix _).trans (dropWhile_suffix wordChar rest)).trans
            (List.suffix_cons ':' rest), ?_⟩
          intro content2 hcap
          rw [← him] at hcap
          cases hcap
      · rename_i x hnotp
        simp only [Option.some.injEq, Prod.mk.injEq] at hm
        obtain ⟨him, hr⟩ := hm
        subst hr
        refine ⟨((readSuffix_suffix _).trans (dropWhile_suffix wordChar rest)).trans
          (List.suffix_cons ':' rest), ?_⟩
        intro content2 hcap
        rw [← him] at hcap
        cases hcap
  · rename_i t
    split at hm
    · rename_i content rest3 heq2
      simp only [Option.some.injEq, Prod.mk.injEq] at hm
      obtain ⟨him, hr⟩ := hm
      subst hr
      obtain ⟨hcne, hshape⟩ := matchGroup_shape t content rest3 heq2
      have hs1 : (readSuffix rest3).2 <:+ rest3 := readSuffix_suffix rest3
      have hs2 : rest3 <:+ t := by
        rw [hshape]
        exact (List.suffix_cons ')' rest3).trans (List.suffix_append _ _)
      refine ⟨(hs1.trans hs2).trans (List.suffix_cons '(' t), ?_⟩
      intro content2 hcap hbs hq
      rw [← him] at hcap
      simp only [Option.some.injEq] at hcap
      subst hcap
      have hbs2 : '\\' ∉ t := fun hmem => hbs (List.mem_cons_of_mem '(' hmem)
      have hheadq : t.head? ≠ some '?' := headq_of_hasOpenQ hq
      refine ⟨hcne, ?_, ?_⟩
      · cases content with
        | nil => exact absurd rfl hcne
        | cons c0 cr =>
          intro hh
          simp only [List.head?_cons, Option.some.injEq] at hh
          subst hh
          apply hheadq
          rw [hshape]
          rfl
      · intro hmem
        apply hbs2
        rw [hshape]
        exact List.mem_append_left _ hmem
    · cases hm
  · rename_i rest
    simp only [Option.some.injEq, Prod.mk.injEq] at hm
    obtain ⟨him, hr⟩ := hm
    subst hr
    refine ⟨List.suffix_cons '*' rest, ?_⟩
    intro content2 hcap
    rw [← him] at hcap
    cases hcap
  · cases hm

theorem matchParamAt_facts (cs : List Char) (p : Option Char) (im : InnerMatch)
    (r : List Char) (hm : matchParamAt cs = some (p, im, r))
    (hbs : '\\' ∉ cs) (hq : hasOpenQ cs = false) :
    (p = none ∨ p = some '/' ∨ p = some '.') ∧ r <:+ cs ∧
    (∀ content, im.cap = some content →
      content ≠ [] ∧ content.head? ≠ some '?' ∧ '\\' ∉ content) := by
  rw [matchParamAt.eq_def] at hm
  split at hm
  · rename_i c rest
    have hbsr : '\\' ∉ rest := fun hmem => hbs (List.mem_cons_of_mem c hmem)
    have hqr : hasOpenQ rest = false := hasOpenQ_tail c rest hq
    by_cases hc : c = '/' || c = '.'
    · rw [if_pos hc] at hm
      split at hm
      · rename_i im2 r2 heq
        cases hm
        have hf := matchInner_facts rest im r heq
        refine ⟨?_, hf.1.trans (List.suffix_cons c rest), ?_⟩
        · rcases (by simpa using hc : c = '/' ∨ c = '.') with h0 | h0 <;>
            rw [h0]
          · exact Or.inr (Or.inl rfl)
          · exact Or.inr (Or.inr rfl)
        · intro content hcap
          exact hf.2 content hcap hbsr hqr
      · split at hm
        · rename_i im2 r2 heq
          cases hm
          have hf := matchInner_facts (c :: rest) im r heq
          exact ⟨Or.inl rfl, hf.1, fun content hcap => hf.2 content hcap hbs hq⟩
        · cases hm
    · rw [if_neg hc] at hm
      split at hm
      · rename_i im2 r2 heq
        cases hm
        have hf := matchInner_facts (c :: rest) im r heq
        exact ⟨Or.inl rfl, hf.1, fun content hcap => hf.2 content hcap hbs hq⟩
      · cases hm
  · cases hm

theorem mkToken_ok (key : Nat) (p : Option Char) (im : InnerMatch)
    (hp : p = none ∨ p = some '/' ∨ p = some '.')
    (hcap : ∀ content, im.cap = some content →
      content ≠ [] ∧ content.head? ≠ some '?' ∧ '\\' ∉ content) :
    tokOK (mkToken key p im) := by
  unfold mkToken tokOK
  dsimp only
  constructor
  · rcases hp with h0 | h0 | h0 <;> subst h0
    · exact Or.inl rfl
    · exact Or.inr (Or.inl rfl)
    · exact Or.inr (Or.inr rfl)
  · cases him : im.cap with
    | some content =>
      obtain ⟨h1, h2, h3⟩ := hcap content him
      exact ⟨content, ⟨h1, h2, h3⟩, rfl⟩
    | none =>
      cases hast : im.ast with
      | true => exact ⟨['.', '*'], ⟨by decide, by decide, by decide⟩, rfl⟩
      | false =>
        rcases hp with h0 | h0 | h0 <;> subst h0
        · exact ⟨['[', '^', '/', ']', '+', '?'], ⟨by decide, by decide, by decide⟩, rfl⟩
        · exact ⟨['[', '^', '/', ']', '+', '?'], ⟨by decide, by decide, by decide⟩, rfl⟩
        · exact ⟨['[', '^', '.', ']', '+', '?'], ⟨by decide, by decide, by decide⟩, rfl⟩

theorem flushLit_ok (pathIt : List Char) (h : '\\' ∉ pathIt) :
    ∀ t ∈ flushLit pathIt, tokOK t := by
  intro t ht
  unfold flushLit at ht
  by_cases hp : pathIt = []
  · rw [if_pos hp] at ht
    cases ht
  · rw [if_neg hp] at ht
    simp only [List.mem_singleton] at ht
    subst ht
    exact h

/-- Every token produced by the PATH_STRIPPER loop from a backslash-free
input without the "(?" digram is escape-clean. -/
theorem parseGo_tokOK : ∀ (fuel : Nat) (cs pathIt : List Char) (key : Nat),
    '\\' ∉ cs → '\\' ∉ pathIt → hasOpenQ cs = false →
    ∀ t ∈ parseGo fuel cs pathIt key, tokOK t := by
  intro fuel
  induction fuel with
  | zero =>
    intro cs pathIt key hbs hbp hq t ht
    exact flushLit_ok pathIt hbp t ht
  | succ fuel ih =>
    intro cs pathIt key hbs hbp hq t ht
    cases cs with
    | nil => exact flushLit_ok pathIt hbp t ht
    | cons c rest =>
      have hc : c ≠ '\\' := fun hcc => hbs (hcc ▸ List.mem_cons_self c rest)
      have hbsr : '\\' ∉ rest := fun hmem => hbs (List.mem_cons_of_mem c hmem)
      have hqr : hasOpenQ rest = false := hasOpenQ_tail c rest hq
      have hbpc : '\\' ∉ pathIt ++ [c] := by
        intro hmem
        rcases List.mem_append.mp hmem with hmem | hmem
        · exact hbp hmem
        · simp only [List.mem_singleton] at hmem
          exact hc hmem.symm
      rw [parseGo.eq_def] at ht
      split at ht
      · rename_i heq
        cases heq
      · rename_i heq
        cases heq
      · rename_i heql
        injection heql with hch hrt
        exact absurd hch hc
      · rename_i heqf heql
        injection heqf with hfe
        subst hfe
        injection heql with hch hrt
        subst hch
        subst hrt
        cases hmp : matchParamAt (c :: rest) with
        | some pir =>
          obtain ⟨pp, im, rest2⟩ := pir
          rw [hmp] at ht
          simp only [List.mem_append, List.mem_singleton] at ht
          obtain ⟨hpp, hsuf, hcap⟩ := matchParamAt_facts (c :: rest) pp im rest2 hmp hbs hq
          rcases ht with (ht | ht) | ht
          · exact flushLit_ok _ hbp t ht
          · subst ht
            exact mkToken_ok _ pp im hpp hcap
          · have hbs2 : '\\' ∉ rest2 := not_mem_of_suffix hsuf hbs
            have hq2 : hasOpenQ rest2 = false := hasOpenQ_of_suffix hsuf hq
            exact ih rest2 [] _ hbs2 (by simp) hq2 t ht
        | none =>
          rw [hmp] at ht
          exact ih rest _ _ hbsr hbpc hqr t ht

/-- C8 (amended): for every route-definition string free of backslashes
and of the "(?" digram, the number of capturing groups in the compiled
expression equals the length of the attached keys list, so positional
match results map one-to-one onto parameter names.  The backslash
restriction is essential, not a convenience: RouteHelper._escapeGroup
prefixes every parenthesis in a custom group with a backslash without
checking whether the user already escaped it, so a group containing
"\\(" compiles to "\\\\(" — an escaped backslash followed by a raw
capturing parenthesis — and the invariant fails (see the
counterexample theorem). -/
theorem compiled_groups_eq_keys (path : String)
    (hbs : '\\' ∉ path.data) (hq : hasOpenQ path.data = false) :
    countCapturing (stringToPathExpSrc path).data =
      (keysOf (parseTokens path)).length := by
  have hok : ∀ t ∈ parseTokens path, tokOK t :=
    parseGo_tokOK (path.data.length + 1) path.data [] 0 hbs (by simp) hq
  exact countCap_tokens (parseTokens path) hok

/-- Witness for C8 at the route "companies/:id": one capturing group,
one key. -/
theorem compiled_groups_eq_keys_w :
    ('\\' ∉ "companies/:id".data ∧ hasOpenQ "companies/:id".data = false) ∧
    countCapturing (stringToPathExpSrc "companies/:id").data =
      (keysOf (parseTokens "companies/:id")).length :=
  ⟨⟨by decide, by decide⟩,
    compiled_groups_eq_keys "companies/:id" (by decide) (by decide)⟩

/-- C8 (counterexample): the original invariant is not universal.  For
the route ":x(a\(b\))" PATH_STRIPPER captures the custom sub-pattern
"a\(b\)", RouteHelper._escapeGroup rewrites it to "a\\(b\\)" (the
user's backslash plus the inserted one form an escaped backslash,
leaving each parenthesis raw), and the compiled source
"^(a\\(b\\))(?:\/(?=$))?$" is accepted by the RegExp constructor with
two capturing groups while the keys list has a single entry, so
positional match results do not map one-to-one onto parameter names. -/
theorem compiled_groups_cex :
    countCapturing (stringToPathExpSrc ":x(a\\(b\\))").data = 2 ∧
      (keysOf (parseTokens ":x(a\\(b\\))")).length = 1 :=
  ⟨by decide, by decide⟩

end Prouter
